import Mathlib

/-!
# Verification of the flare system client core

Shallow embedding of the epoch-driven orchestration engine of the
flare system client: the retry harness, the submitter run loop, the
signature-submission round protocol, the `submitSignatures` payload
codec, the tiled keccak signing-policy hash, and the signing-policy
store.  Each definition transcribes the corresponding Go function;
external libraries (keccak, ECDSA signing, `sort.Find`) are modelled
by their documented contracts as abstract parameters or by contract.
-/

namespace FlareClient

/-! ## Retry harness (`shared.ExecuteWithRetry`)

Transcribes `ExecuteWithRetry(f func() error, maxRetries int)`:
a goroutine runs `f` up to `maxRetries` times, sleeping the fixed
`TxRetryInterval` after every failed attempt, and sends exactly one
`ExecuteStatus` on the returned channel.  The fallible operation is
modelled as a function from the attempt number to whether that attempt
succeeds; the trace records the channel sends, the number of calls to
`f` and the number of sleeps. -/

structure ExecuteStatus where
  success : Bool
  message : String
deriving DecidableEq, Repr

structure RetryTrace where
  sends    : List ExecuteStatus
  attempts : Nat
  sleeps   : Nat
deriving DecidableEq, Repr

/-- The goroutine body of `ExecuteWithRetry`: `remaining` iterations of the
loop are left, the next attempt index is `ri`. -/
def executeWithRetryLoop (f : Nat → Bool) : Nat → Nat → RetryTrace
  | 0, _ => ⟨[⟨false, "max retries reached"⟩], 0, 0⟩
  | remaining + 1, ri =>
    if f ri then
      ⟨[⟨true, ""⟩], 1, 0⟩
    else
      let t := executeWithRetryLoop f remaining (ri + 1)
      ⟨t.sends, t.attempts + 1, t.sleeps + 1⟩

/-- `ExecuteWithRetry(f, maxRetries)`: the loop runs `ri` from `0` while
`ri < maxRetries`. -/
def executeWithRetry (f : Nat → Bool) (maxRetries : Nat) : RetryTrace :=
  executeWithRetryLoop f maxRetries 0

lemma executeWithRetryLoop_all_fail (f : Nat → Bool) :
    ∀ remaining ri, (∀ j, j < remaining → f (ri + j) = false) →
      executeWithRetryLoop f remaining ri =
        ⟨[⟨false, "max retries reached"⟩], remaining, remaining⟩ := by
  intro remaining
  induction remaining with
  | zero => intro ri _; rfl
  | succ k ih =>
    intro ri h
    have h0 : f ri = false := by simpa using h 0 (Nat.succ_pos k)
    have hrest : ∀ j, j < k → f (ri + 1 + j) = false := by
      intro j hj
      have := h (j + 1) (by omega)
      simpa [Nat.add_assoc, Nat.add_comm 1 j] using this
    simp [executeWithRetryLoop, h0, ih (ri + 1) hrest]

lemma executeWithRetryLoop_first_success (f : Nat → Bool) :
    ∀ remaining ri k, k < remaining → f (ri + k) = true →
      (∀ j, j < k → f (ri + j) = false) →
      executeWithRetryLoop f remaining ri = ⟨[⟨true, ""⟩], k + 1, k⟩ := by
  intro remaining
  induction remaining with
  | zero => intro ri k hk; omega
  | succ m ih =>
    intro ri k hk hfk hprev
    match k with
    | 0 =>
      have h0 : f ri = true := by simpa using hfk
      simp [executeWithRetryLoop, h0]
    | k' + 1 =>
      have h0 : f ri = false := by simpa using hprev 0 (Nat.succ_pos k')
      have hfk' : f (ri + 1 + k') = true := by
        have : ri + 1 + k' = ri + (k' + 1) := by omega
        rw [this]; exact hfk
      have hprev' : ∀ j, j < k' → f (ri + 1 + j) = false := by
        intro j hj
        have : ri + 1 + j = ri + (j + 1) := by omega
        rw [this]; exact hprev (j + 1) (by omega)
      have := ih (ri + 1) k' (by omega) hfk' hprev'
      simp [executeWithRetryLoop, h0, this]

/-! ## Submitter run loop (`protocol.Run`)

Transcribes `Run(r EpochRunner, stopAt <-chan int64, lastEpoch chan<- int64)`.
The nondeterministic `select` between the `stopAt` channel and the epoch
ticker is modelled by an input trace of events; the function returns the
sequence of values sent on `lastEpoch` and the sequence of epochs for which
`RunEpoch` was invoked.  If the trace is exhausted before the loop exits,
the loop blocks and nothing further is sent. -/

inductive RunEvent where
  | tick (e : Int)
  | stop (v : Int)
deriving DecidableEq, Repr

/-- `math.MaxInt64`, the initial value of `stopAfterEpoch`. -/
def maxInt64 : Int := 2 ^ 63 - 1

/-- The body of `protocol.Run` after ticker creation: state is
`(epoch, stopAfterEpoch)`, events feed the `select`.  Returns
(values sent on `lastEpoch`, epochs run). -/
def runLoop (epoch stopAfterEpoch : Int) : List RunEvent → List Int × List Int
  | [] => if stopAfterEpoch ≤ epoch then ([epoch], []) else ([], [])
  | ev :: rest =>
    if stopAfterEpoch ≤ epoch then ([epoch], [])
    else
      match ev with
      | .stop v =>
        let r := runLoop epoch v rest
        (epoch :: r.1, r.2)
      | .tick e =>
        let r := runLoop e stopAfterEpoch rest
        (r.1, e :: r.2)

/-- `protocol.Run` itself: `var epoch int64` starts at `0`,
`stopAfterEpoch` at `math.MaxInt64`. -/
def run (evs : List RunEvent) : List Int × List Int :=
  runLoop 0 maxInt64 evs

lemma runLoop_exit {epoch stopAfterEpoch : Int} (evs : List RunEvent)
    (h : stopAfterEpoch ≤ epoch) :
    runLoop epoch stopAfterEpoch evs = ([epoch], []) := by
  cases evs <;> simp [runLoop, h]

lemma runLoop_stop {epoch stopAfterEpoch : Int} {v : Int} (rest : List RunEvent)
    (h : ¬ stopAfterEpoch ≤ epoch) :
    runLoop epoch stopAfterEpoch (.stop v :: rest) =
      (epoch :: (runLoop epoch v rest).1, (runLoop epoch v rest).2) := by
  simp [runLoop, h]

lemma runLoop_tick {epoch stopAfterEpoch : Int} {e : Int} (rest : List RunEvent)
    (h : ¬ stopAfterEpoch ≤ epoch) :
    runLoop epoch stopAfterEpoch (.tick e :: rest) =
      ((runLoop e stopAfterEpoch rest).1, e :: (runLoop e stopAfterEpoch rest).2) := by
  simp [runLoop, h]

lemma runLoop_ticks_stop_tick (v : Int) (hv : v < maxInt64) :
    ∀ (pre : List Int) (e0 : Int), e0 < v → (∀ e ∈ pre, e < v) →
      runLoop e0 maxInt64 (pre.map RunEvent.tick ++ [RunEvent.stop v, RunEvent.tick v]) =
        ([pre.getLastD e0, v], pre ++ [v]) := by
  intro pre
  induction pre with
  | nil =>
    intro e0 he0 _
    have h1 : ¬ maxInt64 ≤ e0 := by omega
    have h2 : ¬ v ≤ e0 := by omega
    rw [List.map_nil, List.nil_append, runLoop_stop _ h1, runLoop_tick _ h2,
      runLoop_exit _ (le_refl v)]
    rfl
  | cons e rest ih =>
    intro e0 he0 hall
    have he : e < v := hall e (List.mem_cons_self e rest)
    have h1 : ¬ maxInt64 ≤ e0 := by omega
    have hrest : ∀ x ∈ rest, x < v := fun x hx => hall x (List.mem_cons_of_mem e hx)
    rw [List.map_cons, List.cons_append, runLoop_tick _ h1, ih e he hrest]
    simp only [List.getLastD_cons, List.cons_append]

/-! ## Payload codec (`SignatureSubmitter.WritePayload`)

Bytes are modelled as natural numbers below 256, byte strings as lists.
ECDSA signing (`crypto.Sign` of the Ethereum text-hash of
`keccak256(data)`) is abstracted as a function from the message data to
the 65-byte signature. -/

/-- Modelled from the spec: `shared.Uint32toBytes` is not under `src/`;
§4.8 fixes the encoding as big-endian where width > 1, so a `u32` is its
four bytes most-significant first. -/
def uint32toBytes (n : Nat) : List Nat :=
  [n / 2 ^ 24 % 256, n / 2 ^ 16 % 256, n / 2 ^ 8 % 256, n % 256]

/-- Modelled from the spec: `shared.Uint16toBytes` is not under `src/`;
§4.8 fixes the encoding as big-endian where width > 1. -/
def uint16toBytes (n : Nat) : List Nat :=
  [n / 2 ^ 8 % 256, n % 256]

/-- Go's `uint32(x)` conversion of an `int64`: truncation to the low 32 bits
of the two's-complement representation. -/
def uint32ofInt (x : Int) : Nat := (x % 2 ^ 32).toNat

/-- `SignatureSubmitter.WritePayload(buffer, currentEpoch, data)`: the bytes
the call appends to the buffer.  `sign data` stands for
`crypto.Sign(accounts.TextHash(crypto.Keccak256(data.Data)), key)`. -/
def writePayload (sign : List Nat → List Nat) (currentEpoch : Int)
    (data additionalData : List Nat) : List Nat :=
  let signature := sign data
  let epochBytes := uint32toBytes (uint32ofInt (currentEpoch - 1))
  let lengthBytes := uint16toBytes ((104 + additionalData.length) % 2 ^ 16)
  [100] ++ epochBytes ++ lengthBytes ++ [0] ++ data ++
    [(signature.getD 64 0 + 27) % 256] ++ signature.take 32 ++
    ((signature.drop 32).take 32) ++ additionalData

/-- The entry `SignatureSubmitter.RunEpoch` appends per included protocol:
it calls `s.WritePayload(buffer, currentEpoch-1, data.Value)`, i.e. the
`currentEpoch` argument of `WritePayload` is already the decremented epoch. -/
def runEpochEntry (sign : List Nat → List Nat) (currentEpoch : Int)
    (data additionalData : List Nat) : List Nat :=
  writePayload sign (currentEpoch - 1) data additionalData

/-! ## Signature-submission round (`SignatureSubmitter.RunEpoch`)

One iteration of the round loop over the outstanding-protocols set
`protocolsToSend` (a set of sub-protocol indices).  `ok i` states that
protocol `i`'s fetch succeeded this round and its entry wrote cleanly
(`data.Success` and `WritePayload` returned no error); `submitOk` is the
outcome of `s.submit(buffer.Bytes())` when a transaction is sent. -/

structure RoundResult where
  newToSend : Finset Nat
  submitted : Bool
  appended  : List Nat
deriving DecidableEq

/-- One round of `SignatureSubmitter.RunEpoch`'s loop body: launch fetches
for the outstanding indices, clone the set, append an entry for each
outstanding index (in sub-protocol order) whose fetch-and-write succeeds and
remove it from the set; if anything was appended submit, restoring the clone
on failure, otherwise log and do not submit. -/
def signatureRound (n : Nat) (ok : Nat → Bool) (submitOk : Bool)
    (protocolsToSend : Finset Nat) : RoundResult :=
  let protocolsToSendCopy := protocolsToSend
  let appended := (List.range n).filter (fun i => i ∈ protocolsToSend ∧ ok i)
  let afterLoop := protocolsToSend.filter (fun i => ¬ (i < n ∧ ok i = true))
  if afterLoop.card < protocolsToSendCopy.card then
    { newToSend := if submitOk then afterLoop else protocolsToSendCopy
      submitted := true
      appended := appended }
  else
    { newToSend := afterLoop, submitted := false, appended := appended }

lemma signatureRound_afterLoop_eq (n : Nat) (ok : Nat → Bool)
    (protocolsToSend : Finset Nat)
    (h : ∀ i ∈ protocolsToSend, ¬ (i < n ∧ ok i = true)) :
    protocolsToSend.filter (fun i => ¬ (i < n ∧ ok i = true)) = protocolsToSend :=
  Finset.filter_true_of_mem h

lemma signatureRound_card_lt (n : Nat) (ok : Nat → Bool)
    (protocolsToSend : Finset Nat) (i : Nat) (hi : i ∈ protocolsToSend)
    (hin : i < n) (hok : ok i = true) :
    (protocolsToSend.filter (fun i => ¬ (i < n ∧ ok i = true))).card <
      protocolsToSend.card := by
  apply Finset.card_lt_card
  rw [Finset.ssubset_iff_of_subset (Finset.filter_subset _ _)]
  exact ⟨i, hi, by simp [Finset.mem_filter, hi, hin, hok]⟩

/-! ## Signing-policy hash (`registration.SigningPolicyHash`)

`crypto.Keccak256` (external) hashes the concatenation of its arguments;
it is abstracted as a function `keccak` on byte strings.  Go slicing
`b[lo:hi]` out of range panics; a panic is modelled as `none`. -/

/-- Go slice expression `b[lo:hi]` on a byte string whose capacity equals
its length: out-of-range bounds panic (`none`). -/
def goSlice (b : List Nat) (lo hi : Nat) : Option (List Nat) :=
  if lo ≤ hi ∧ hi ≤ b.length then some ((b.drop lo).take (hi - lo)) else none

/-- The padding reassignment at the top of `SigningPolicyHash`: if the
length is not a multiple of 32, append that many zero bytes. -/
def padPolicy (signingPolicy : List Nat) : List Nat :=
  if signingPolicy.length % 32 ≠ 0 then
    signingPolicy ++ List.replicate (32 - signingPolicy.length % 32) 0
  else signingPolicy

/-- The loop `for i := 2; i < len(signingPolicy)/32; i++`:
`k` iterations remain, the current index is `i`. -/
def hashLoopAux (keccak : List Nat → List Nat) (signingPolicy : List Nat) :
    Nat → Nat → List Nat → Option (List Nat)
  | 0, _, hash => some hash
  | k + 1, i, hash => do
    let tile ← goSlice signingPolicy (i * 32) ((i + 1) * 32)
    hashLoopAux keccak signingPolicy k (i + 1) (keccak (hash ++ tile))

/-- `SigningPolicyHash` after the padding reassignment. -/
def signingPolicyHashCore (keccak : List Nat → List Nat)
    (signingPolicy : List Nat) : Option (List Nat) := do
  let tile0 ← goSlice signingPolicy 0 32
  let tile1 ← goSlice signingPolicy 32 64
  hashLoopAux keccak signingPolicy (signingPolicy.length / 32 - 2) 2
    (keccak (tile0 ++ tile1))

/-- `registration.SigningPolicyHash(signingPolicy)`. -/
def signingPolicyHash (keccak : List Nat → List Nat)
    (signingPolicy : List Nat) : Option (List Nat) :=
  signingPolicyHashCore keccak (padPolicy signingPolicy)

/-- The 32-byte tiles of a byte string, the last one possibly partial. -/
def tiles32 (b : List Nat) : List (List Nat) :=
  if b.isEmpty then []
  else b.take 32 :: tiles32 (b.drop 32)
termination_by b.length
decreasing_by
  simp only [List.length_drop]
  have : b.length ≠ 0 := by
    intro h
    exact absurd (List.isEmpty_iff_length_eq_zero.mpr h) (by simp_all)
  omega

/-- The hash as the specification states it: a left-associative fold over
the 32-byte tiles of the zero-padded input, seeded with the keccak hash of
the first two tiles. -/
def signingPolicyHashSpec (keccak : List Nat → List Nat)
    (signingPolicy : List Nat) : List Nat :=
  match tiles32 (padPolicy signingPolicy) with
  | tile0 :: tile1 :: rest =>
    rest.foldl (fun h tile => keccak (h ++ tile)) (keccak (tile0 ++ tile1))
  | _ => []

lemma padPolicy_length_mod (signingPolicy : List Nat) :
    (padPolicy signingPolicy).length % 32 = 0 := by
  unfold padPolicy
  by_cases h : signingPolicy.length % 32 ≠ 0
  · rw [if_pos h]
    simp only [List.length_append, List.length_replicate]
    omega
  · rw [if_neg h]
    omega

lemma padPolicy_length_ge (signingPolicy : List Nat) :
    signingPolicy.length ≤ (padPolicy signingPolicy).length := by
  unfold padPolicy
  by_cases h : signingPolicy.length % 32 ≠ 0 <;> simp [h]

lemma padPolicy_of_mod_ne (signingPolicy : List Nat)
    (h : signingPolicy.length % 32 ≠ 0) :
    padPolicy
      (signingPolicy ++ List.replicate (32 - signingPolicy.length % 32) 0) =
      padPolicy signingPolicy := by
  have hlen : ¬ ((signingPolicy ++
      List.replicate (32 - signingPolicy.length % 32) 0).length % 32 ≠ 0) := by
    simp only [List.length_append, List.length_replicate]
    omega
  unfold padPolicy
  rw [if_neg hlen, if_pos h]

lemma tiles32_nil : tiles32 [] = [] := by
  unfold tiles32; rfl

lemma tiles32_cons (b : List Nat) (h : b ≠ []) :
    tiles32 b = b.take 32 :: tiles32 (b.drop 32) := by
  conv_lhs => unfold tiles32
  simp [h]

/-- The loop agrees with the fold over the remaining tiles:
if exactly `k` tiles remain from index `i` on, iterating the loop equals
folding over the tiles of the suffix. -/
lemma hashLoopAux_eq_foldl (keccak : List Nat → List Nat) :
    ∀ (k : Nat) (signingPolicy : List Nat) (i : Nat) (hash : List Nat),
      signingPolicy.length = 32 * (i + k) →
      hashLoopAux keccak signingPolicy k i hash =
        some ((tiles32 (signingPolicy.drop (32 * i))).foldl
          (fun h tile => keccak (h ++ tile)) hash) := by
  intro k
  induction k with
  | zero =>
    intro signingPolicy i hash hlen
    have hdrop : signingPolicy.drop (32 * i) = [] := by
      apply List.drop_eq_nil_of_le
      omega
    simp [hashLoopAux, hdrop, tiles32_nil]
  | succ m ih =>
    intro signingPolicy i hash hlen
    have hbound : (i + 1) * 32 ≤ signingPolicy.length := by omega
    have hslice : goSlice signingPolicy (i * 32) ((i + 1) * 32) =
        some ((signingPolicy.drop (i * 32)).take 32) := by
      unfold goSlice
      have h1 : i * 32 ≤ (i + 1) * 32 := by omega
      have h2 : (i + 1) * 32 - i * 32 = 32 := by omega
      simp [h1, hbound, h2]
    have hne : signingPolicy.drop (32 * i) ≠ [] := by
      intro hnil
      have := congrArg List.length hnil
      simp only [List.length_drop, List.length_nil] at this
      omega
    have hmul : i * 32 = 32 * i := by omega
    rw [hashLoopAux, hslice]
    simp only [Option.bind_eq_bind, Option.some_bind]
    rw [ih signingPolicy (i + 1) _ (by omega)]
    rw [tiles32_cons (signingPolicy.drop (32 * i)) hne]
    simp only [List.foldl_cons, List.drop_drop]
    have h32 : 32 * (i + 1) = 32 * i + 32 := by omega
    rw [hmul, h32]

lemma padPolicy_length_le (signingPolicy : List Nat)
    (h : signingPolicy.length ≤ 32) : (padPolicy signingPolicy).length ≤ 32 := by
  unfold padPolicy
  by_cases hm : signingPolicy.length % 32 ≠ 0
  · rw [if_pos hm]
    simp only [List.length_append, List.length_replicate]
    omega
  · rw [if_neg hm]
    exact h

lemma signingPolicyHashCore_none (keccak : List Nat → List Nat)
    (b : List Nat) (h : b.length < 64) :
    signingPolicyHashCore keccak b = none := by
  unfold signingPolicyHashCore goSlice
  by_cases h32 : 32 ≤ b.length
  · have h64 : ¬ (32 ≤ 64 ∧ 64 ≤ b.length) := by omega
    simp [h32, h64]
    intro h'
    omega
  · have h0 : ¬ (0 ≤ 32 ∧ 32 ≤ b.length) := by omega
    simp [h0]
    intro h1 h2
    omega

lemma signingPolicyHashCore_some (keccak : List Nat → List Nat)
    (b : List Nat) (hmod : b.length % 32 = 0) (hge : 64 ≤ b.length) :
    signingPolicyHashCore keccak b =
      some ((tiles32 (b.drop 64)).foldl (fun h tile => keccak (h ++ tile))
        (keccak (b.take 32 ++ (b.drop 32).take 32))) := by
  have ht0 : goSlice b 0 32 = some (b.take 32) := by
    unfold goSlice
    have h1 : (0 : Nat) ≤ 32 ∧ 32 ≤ b.length := by omega
    rw [if_pos h1]
    simp
  have ht1 : goSlice b 32 64 = some ((b.drop 32).take 32) := by
    unfold goSlice
    have h1 : (32 : Nat) ≤ 64 ∧ 64 ≤ b.length := by omega
    rw [if_pos h1]
  have hloop := hashLoopAux_eq_foldl keccak (b.length / 32 - 2) b 2
    (keccak (b.take 32 ++ (b.drop 32).take 32)) (by omega)
  have h64 : (32 : Nat) * 2 = 64 := by norm_num
  unfold signingPolicyHashCore
  rw [ht0, ht1]
  simp only [Option.bind_eq_bind, Option.some_bind]
  rw [hloop, h64]

lemma signingPolicyHashSpec_expand (keccak : List Nat → List Nat)
    (signingPolicy : List Nat) (h : 32 < signingPolicy.length) :
    signingPolicyHashSpec keccak signingPolicy =
      (tiles32 ((padPolicy signingPolicy).drop 64)).foldl
        (fun h tile => keccak (h ++ tile))
        (keccak ((padPolicy signingPolicy).take 32 ++
          ((padPolicy signingPolicy).drop 32).take 32)) := by
  have hge : 64 ≤ (padPolicy signingPolicy).length := by
    have h1 := padPolicy_length_ge signingPolicy
    have h2 := padPolicy_length_mod signingPolicy
    omega
  have hbne : padPolicy signingPolicy ≠ [] := by
    intro hnil
    have := congrArg List.length hnil
    simp only [List.length_nil] at this
    omega
  have hdne : (padPolicy signingPolicy).drop 32 ≠ [] := by
    intro hnil
    have := congrArg List.length hnil
    simp only [List.length_drop, List.length_nil] at this
    omega
  have h64 : (32 : Nat) + 32 = 64 := by norm_num
  unfold signingPolicyHashSpec
  rw [tiles32_cons _ hbne, tiles32_cons _ hdne, List.drop_drop, h64]

lemma signingPolicyHash_eq_spec (keccak : List Nat → List Nat)
    (signingPolicy : List Nat) (h : 32 < signingPolicy.length) :
    signingPolicyHash keccak signingPolicy =
      some (signingPolicyHashSpec keccak signingPolicy) := by
  have hge : 64 ≤ (padPolicy signingPolicy).length := by
    have h1 := padPolicy_length_ge signingPolicy
    have h2 := padPolicy_length_mod signingPolicy
    omega
  unfold signingPolicyHash
  rw [signingPolicyHashCore_some keccak _ (padPolicy_length_mod signingPolicy) hge,
    signingPolicyHashSpec_expand keccak signingPolicy h]

/-! ## Signing-policy store (`finalizer.signingPolicyStorage`)

Addresses are modelled as naturals; Go maps as insertion-ordered
association lists with unique keys (`mapInsert` replaces, `mapDelete`
removes, `mapLookup` finds).  The mutex only serializes access and has no
sequential content. -/

structure SigningPolicy where
  rewardEpochId : Int
  startVotingRoundId : Nat
  threshold : Nat
  seed : Int
  voters : List Nat
  weights : List Nat
  rawBytes : List Nat
  blockTimestamp : Nat
deriving DecidableEq, Repr

structure VoterData where
  index : Nat
  weight : Nat
deriving DecidableEq, Repr

/-- The inner `map[common.Address]voterData`. -/
abbrev VoterMapEntry := List (Nat × VoterData)

/-- The outer `map[int64]map[common.Address]voterData`. -/
abbrev VoterMap := List (Int × VoterMapEntry)

def lookupVoter (addr : Nat) (vMap : VoterMapEntry) : Option VoterData :=
  (vMap.find? (fun q => q.1 == addr)).map Prod.snd

def mapInsert (k : Int) (v : VoterMapEntry) (m : VoterMap) : VoterMap :=
  if m.any (fun q => q.1 == k) then
    m.map (fun q => if q.1 == k then (k, v) else q)
  else m ++ [(k, v)]

def mapDelete (k : Int) (m : VoterMap) : VoterMap :=
  m.filter (fun q => ! (q.1 == k))

def mapLookup (k : Int) (m : VoterMap) : Option VoterMapEntry :=
  (m.find? (fun q => q.1 == k)).map Prod.snd

structure SigningPolicyStorage where
  spList : List SigningPolicy
  voterMap : VoterMap
deriving DecidableEq, Repr

def newSigningPolicyStorage : SigningPolicyStorage := ⟨[], []⟩

/-- The loop `for i, voter := range sp.voters` of `Add`: insert
`{index: i, weight: sp.weights[i]}` only if the address is not yet
present (first occurrence wins).  Go's `sp.weights[i]` is modelled with
default `0`; the data-model invariant keeps the two lists parallel. -/
def buildVoterMapLoop (weights : List Nat) :
    Nat → List Nat → VoterMapEntry → VoterMapEntry
  | _, [], vMap => vMap
  | i, voter :: rest, vMap =>
    buildVoterMapLoop weights (i + 1) rest
      (if vMap.any (fun q => q.1 == voter) then vMap
       else vMap ++ [(voter, ⟨i, weights.getD i 0⟩)])

def buildVoterMap (voters weights : List Nat) : VoterMapEntry :=
  buildVoterMapLoop weights 0 voters []

/-- `signingPolicyStorage.Add`: consistency checks against the last stored
policy, then append and index the voters. -/
def SigningPolicyStorage.add (s : SigningPolicyStorage) (sp : SigningPolicy) :
    Except String SigningPolicyStorage :=
  let appended : SigningPolicyStorage :=
    { spList := s.spList ++ [sp]
      voterMap := mapInsert sp.rewardEpochId
        (buildVoterMap sp.voters sp.weights) s.voterMap }
  match s.spList.getLast? with
  | some last =>
    if last.rewardEpochId ≠ sp.rewardEpochId - 1 then
      .error ("missing signing policy for reward epoch id " ++
        toString (sp.rewardEpochId - 1))
    else if sp.startVotingRoundId < last.startVotingRoundId then
      .error ("signing policy for reward epoch id " ++
        toString sp.rewardEpochId ++
        " has larger start voting round id than previous policy")
    else .ok appended
  | none => .ok appended

/-- `sort.Find` modelled by its documented contract: the smallest index
`i` with `cmp(i) ≤ 0` — here `votingRoundId ≤ spList[i].startVotingRoundId`
— or `n` if there is none, `found` iff `i < n` and `cmp(i) == 0`.  On the
sorted lists kept by `Add` this is exactly the binary search's result. -/
def SigningPolicyStorage.findByVotingRoundId (s : SigningPolicyStorage)
    (votingRoundId : Nat) : Option SigningPolicy :=
  let i := s.spList.findIdx (fun p => decide (votingRoundId ≤ p.startVotingRoundId))
  let found : Bool := match s.spList.get? i with
    | some p => votingRoundId == p.startVotingRoundId
    | none => false
  if found then s.spList.get? i
  else if i == 0 then none
  else s.spList.get? (i - 1)

def SigningPolicyStorage.GetForVotingRound (s : SigningPolicyStorage)
    (votingRoundId : Nat) : Option SigningPolicy :=
  s.findByVotingRoundId votingRoundId

def SigningPolicyStorage.First (s : SigningPolicyStorage) :
    Option SigningPolicy :=
  s.spList.head?

/-- The loop of `RemoveByVotingRound`: pop front policies with
`startVotingRoundId ≤ votingRoundId`, recording `uint32(rewardEpochId)` and
deleting the voter-map entry. -/
def removeLoop (votingRoundId : Nat) :
    List SigningPolicy → VoterMap → List SigningPolicy × VoterMap × List Nat
  | [], vm => ([], vm, [])
  | p :: rest, vm =>
    if p.startVotingRoundId ≤ votingRoundId then
      let r := removeLoop votingRoundId rest (mapDelete p.rewardEpochId vm)
      (r.1, r.2.1, uint32ofInt p.rewardEpochId :: r.2.2)
    else (p :: rest, vm, [])

def SigningPolicyStorage.RemoveByVotingRound (s : SigningPolicyStorage)
    (votingRoundId : Nat) : SigningPolicyStorage × List Nat :=
  let r := removeLoop votingRoundId s.spList s.voterMap
  (⟨r.1, r.2.1⟩, r.2.2)

/-- The store operations a client can perform on the shared storage. -/
inductive StoreOp where
  | add (sp : SigningPolicy)
  | removeByVotingRound (v : Nat)

/-- One call against the storage; a rejected `Add` leaves it unchanged
(the caller logs and continues). -/
def applyOp (s : SigningPolicyStorage) : StoreOp → SigningPolicyStorage
  | .add sp =>
    match s.add sp with
    | .ok s' => s'
    | .error _ => s
  | .removeByVotingRound v => (s.RemoveByVotingRound v).1

def runOps (ops : List StoreOp) : SigningPolicyStorage :=
  ops.foldl applyOp newSigningPolicyStorage

def runAdds (sps : List SigningPolicy) : SigningPolicyStorage :=
  runOps (sps.map StoreOp.add)

/-- Consecutive stored policies: reward epoch advances by exactly one and
the start voting round does not decrease. -/
def policyRel (p q : SigningPolicy) : Prop :=
  q.rewardEpochId = p.rewardEpochId + 1 ∧
    p.startVotingRoundId ≤ q.startVotingRoundId

instance : DecidableRel policyRel := fun p q => by
  unfold policyRel
  infer_instance

/-- The storage invariant: the list is chained by `policyRel`, the voter
map's keys are exactly (and in order) the stored reward epoch ids, and each
stored policy's voter-map entry is its first-wins voter index. -/
def StorageInv (s : SigningPolicyStorage) : Prop :=
  List.Chain' policyRel s.spList ∧
  s.voterMap.map Prod.fst = s.spList.map (fun p => p.rewardEpochId) ∧
  ∀ p ∈ s.spList, mapLookup p.rewardEpochId s.voterMap =
    some (buildVoterMap p.voters p.weights)

def ridLt (p q : SigningPolicy) : Prop :=
  p.rewardEpochId < q.rewardEpochId

instance : IsTrans SigningPolicy ridLt :=
  ⟨fun _ _ _ h1 h2 => lt_trans h1 h2⟩

def startLe (p q : SigningPolicy) : Prop :=
  p.startVotingRoundId ≤ q.startVotingRoundId

instance : IsTrans SigningPolicy startLe :=
  ⟨fun _ _ _ h1 h2 => le_trans h1 h2⟩

lemma chain_rid_pairwise {l : List SigningPolicy}
    (h : List.Chain' policyRel l) : List.Pairwise ridLt l :=
  List.chain'_iff_pairwise.mp
    (h.imp fun _ _ hr => by unfold ridLt; have h1 := hr.1; omega)

lemma chain_start_pairwise {l : List SigningPolicy}
    (h : List.Chain' policyRel l) : List.Pairwise startLe l :=
  List.chain'_iff_pairwise.mp
    (h.imp fun _ _ hr => hr.2)

lemma chain_le_last :
    ∀ (l : List SigningPolicy) (last : SigningPolicy),
      List.Chain' policyRel l → l.getLast? = some last →
      ∀ p ∈ l, p.rewardEpochId ≤ last.rewardEpochId := by
  intro l
  induction l with
  | nil => intro last _ h; simp at h
  | cons x t ih =>
    intro last hch hlast p hp
    cases t with
    | nil =>
      simp only [List.getLast?_singleton, Option.some_inj] at hlast
      simp only [List.mem_singleton] at hp
      subst hlast; subst hp
      exact le_refl _
    | cons y t' =>
      rw [List.chain'_cons] at hch
      rw [List.getLast?_cons_cons] at hlast
      rcases List.mem_cons.mp hp with hx | hmem
      · subst hx
        have hy := ih last hch.2 hlast y (List.mem_cons_self y t')
        have := hch.1.1
        omega
      · exact ih last hch.2 hlast p hmem

lemma mapDelete_keys (k : Int) (m : VoterMap) :
    (mapDelete k m).map Prod.fst =
      (m.map Prod.fst).filter (fun x => ! (x == k)) := by
  induction m with
  | nil => rfl
  | cons q t ih =>
    unfold mapDelete at ih ⊢
    by_cases h : q.1 == k
    · simp [List.filter_cons, h, ih]
    · simp only [Bool.not_eq_true] at h
      simp [List.filter_cons, h, ih]

lemma mapLookup_mapDelete_ne (k k' : Int) (m : VoterMap) (h : k ≠ k') :
    mapLookup k (mapDelete k' m) = mapLookup k m := by
  induction m with
  | nil => rfl
  | cons q t ih =>
    unfold mapDelete mapLookup at ih ⊢
    by_cases hq : q.1 = k'
    · have h1 : (! (q.1 == k')) = false := by simp [hq]
      have h2 : q.1 ≠ k := by rw [hq]; exact Ne.symm h
      simp only [List.filter_cons, h1, Bool.false_eq_true, if_false]
      rw [List.find?_cons_of_neg _ (by simp [h2])]
      exact ih
    · have h1 : (! (q.1 == k')) = true := by simp [hq]
      simp only [List.filter_cons, h1, if_true]
      by_cases hk : q.1 = k
      · rw [List.find?_cons_of_pos _ (by simp [hk]),
          List.find?_cons_of_pos _ (by simp [hk])]
      · rw [List.find?_cons_of_neg _ (by simp [hk]),
          List.find?_cons_of_neg _ (by simp [hk])]
        exact ih

lemma mapLookup_append_of_some (k : Int) (m m' : VoterMap) (e : VoterMapEntry)
    (h : mapLookup k m = some e) : mapLookup k (m ++ m') = some e := by
  unfold mapLookup at h ⊢
  rw [List.find?_append]
  cases hf : m.find? (fun q => q.1 == k) with
  | none => rw [hf] at h; simp at h
  | some pair => rw [hf] at h; simpa using h

lemma mapLookup_append_of_none (k : Int) (m m' : VoterMap)
    (h : m.find? (fun q => q.1 == k) = none) :
    mapLookup k (m ++ m') = mapLookup k m' := by
  unfold mapLookup
  rw [List.find?_append, h]
  rfl

lemma storageInv_empty : StorageInv newSigningPolicyStorage := by
  refine ⟨List.chain'_nil, rfl, ?_⟩
  intro p hp
  simp [newSigningPolicyStorage] at hp

lemma storageInv_add (s : SigningPolicyStorage) (sp : SigningPolicy)
    (h : StorageInv s) : StorageInv (applyOp s (.add sp)) := by
  obtain ⟨hch, hkeys, hlook⟩ := h
  show StorageInv (match s.add sp with | .ok s' => s' | .error _ => s)
  cases hadd : s.add sp with
  | error e => exact ⟨hch, hkeys, hlook⟩
  | ok s' =>
    unfold SigningPolicyStorage.add at hadd
    cases hlast : s.spList.getLast? with
    | none =>
      simp only [hlast] at hadd
      have hnil : s.spList = [] := List.getLast?_eq_none_iff.mp hlast
      have hvmnil : s.voterMap = [] := by
        apply List.map_eq_nil_iff.mp
        rw [hkeys, hnil, List.map_nil]
      rw [Except.ok.injEq] at hadd
      subst hadd
      refine ⟨?_, ?_, ?_⟩
      · rw [hnil]
        exact List.chain'_singleton sp
      · rw [hnil, hvmnil]
        simp [mapInsert]
      · intro p hp
        rw [hnil] at hp
        simp only [List.nil_append, List.mem_singleton] at hp
        subst hp
        rw [hvmnil]
        simp [mapInsert, mapLookup]
    | some last =>
      simp only [hlast] at hadd
      by_cases hc1 : last.rewardEpochId ≠ sp.rewardEpochId - 1
      · rw [if_pos hc1] at hadd
        simp at hadd
      rw [if_neg hc1] at hadd
      by_cases hc2 : sp.startVotingRoundId < last.startVotingRoundId
      · rw [if_pos hc2] at hadd
        simp at hadd
      rw [if_neg hc2, Except.ok.injEq] at hadd
      subst hadd
      have hrel : policyRel last sp := by
        constructor
        · simp only [ne_eq, not_not] at hc1
          omega
        · exact Nat.le_of_not_lt hc2
      have hle := chain_le_last s.spList last hch hlast
      have hfresh : ∀ q ∈ s.voterMap, q.1 ≠ sp.rewardEpochId := by
        intro q hq
        have hmem : q.1 ∈ s.voterMap.map Prod.fst := List.mem_map_of_mem _ hq
        rw [hkeys] at hmem
        obtain ⟨p, hp, hpq⟩ := List.mem_map.mp hmem
        have := hle p hp
        simp only [ne_eq, not_not] at hc1
        omega
      have hany : (s.voterMap.any (fun q => q.1 == sp.rewardEpochId)) = false := by
        rw [List.any_eq_false]
        intro q hq
        simp [hfresh q hq]
      have hfind : s.voterMap.find? (fun q => q.1 == sp.rewardEpochId) = none := by
        rw [List.find?_eq_none]
        intro q hq
        simp [hfresh q hq]
      have hins : mapInsert sp.rewardEpochId
          (buildVoterMap sp.voters sp.weights) s.voterMap =
          s.voterMap ++ [(sp.rewardEpochId, buildVoterMap sp.voters sp.weights)] := by
        unfold mapInsert
        rw [hany]
        simp
      refine ⟨?_, ?_, ?_⟩
      · rw [List.chain'_append]
        refine ⟨hch, List.chain'_singleton sp, ?_⟩
        intro x hx y hy
        rw [hlast, Option.mem_def, Option.some_inj] at hx
        rw [List.head?_cons, Option.mem_def, Option.some_inj] at hy
        subst hx; subst hy
        exact hrel
      · rw [hins, List.map_append, List.map_append, hkeys]
        rfl
      · intro p hp
        rw [hins]
        rcases List.mem_append.mp hp with hmem | hmem
        · exact mapLookup_append_of_some _ _ _ _ (hlook p hmem)
        · simp only [List.mem_singleton] at hmem
          subst hmem
          rw [mapLookup_append_of_none _ _ _ hfind]
          simp [mapLookup]

lemma removeLoop_inv :
    ∀ (l : List SigningPolicy) (vm : VoterMap) (v : Nat),
      List.Chain' policyRel l →
      vm.map Prod.fst = l.map (fun p => p.rewardEpochId) →
      (∀ p ∈ l, mapLookup p.rewardEpochId vm =
        some (buildVoterMap p.voters p.weights)) →
      List.Chain' policyRel (removeLoop v l vm).1 ∧
      (removeLoop v l vm).2.1.map Prod.fst =
        (removeLoop v l vm).1.map (fun p => p.rewardEpochId) ∧
      ∀ p ∈ (removeLoop v l vm).1,
        mapLookup p.rewardEpochId (removeLoop v l vm).2.1 =
          some (buildVoterMap p.voters p.weights) := by
  intro l
  induction l with
  | nil =>
    intro vm v _ hkeys hlook
    exact ⟨List.chain'_nil, hkeys, hlook⟩
  | cons p rest ih =>
    intro vm v hch hkeys hlook
    by_cases hle : p.startVotingRoundId ≤ v
    · have hpw := chain_rid_pairwise hch
      have hne : ∀ q ∈ rest, p.rewardEpochId ≠ q.rewardEpochId := by
        intro q hq
        have := (List.pairwise_cons.mp hpw).1 q hq
        unfold ridLt at this
        omega
      have hkeys' : (mapDelete p.rewardEpochId vm).map Prod.fst =
          rest.map (fun q => q.rewardEpochId) := by
        rw [mapDelete_keys, hkeys, List.map_cons, List.filter_cons]
        have hself : (! (p.rewardEpochId == p.rewardEpochId)) = false := by simp
        rw [hself]
        simp only [Bool.false_eq_true, if_false]
        apply List.filter_eq_self.mpr
        intro x hx
        obtain ⟨q, hq, hxq⟩ := List.mem_map.mp hx
        subst hxq
        simp [Ne.symm (hne q hq)]
      have hlook' : ∀ q ∈ rest,
          mapLookup q.rewardEpochId (mapDelete p.rewardEpochId vm) =
            some (buildVoterMap q.voters q.weights) := by
        intro q hq
        rw [mapLookup_mapDelete_ne _ _ _ (Ne.symm (hne q hq))]
        exact hlook q (List.mem_cons_of_mem p hq)
      have hch' : List.Chain' policyRel rest := hch.tail
      have := ih (mapDelete p.rewardEpochId vm) v hch' hkeys' hlook'
      unfold removeLoop
      rw [if_pos hle]
      exact this
    · unfold removeLoop
      rw [if_neg hle]
      exact ⟨hch, hkeys, hlook⟩

lemma storageInv_applyOp (s : SigningPolicyStorage) (op : StoreOp)
    (h : StorageInv s) : StorageInv (applyOp s op) := by
  cases op with
  | add sp => exact storageInv_add s sp h
  | removeByVotingRound v =>
    obtain ⟨hch, hkeys, hlook⟩ := h
    exact removeLoop_inv s.spList s.voterMap v hch hkeys hlook

lemma storageInv_foldl :
    ∀ (ops : List StoreOp) (s : SigningPolicyStorage), StorageInv s →
      StorageInv (ops.foldl applyOp s) := by
  intro ops
  induction ops with
  | nil => intro s h; exact h
  | cons op rest ih =>
    intro s h
    exact ih (applyOp s op) (storageInv_applyOp s op h)

lemma storageInv_runOps (ops : List StoreOp) : StorageInv (runOps ops) :=
  storageInv_foldl ops newSigningPolicyStorage storageInv_empty

section FindSpec

variable (v : Nat)

/-- The comparison predicate of the `sort.Find` call. -/
def findPred (v : Nat) : SigningPolicy → Bool :=
  fun p => decide (v ≤ p.startVotingRoundId)

lemma findByVotingRoundId_eq (s : SigningPolicyStorage) :
    s.findByVotingRoundId v =
      (if (match s.spList[s.spList.findIdx (findPred v)]? with
            | some p => v == p.startVotingRoundId
            | none => false) then
        s.spList[s.spList.findIdx (findPred v)]?
      else if s.spList.findIdx (findPred v) == 0 then none
      else s.spList[s.spList.findIdx (findPred v) - 1]?) := by
  unfold SigningPolicyStorage.findByVotingRoundId findPred
  simp only [List.get?_eq_getElem?]

lemma findByVotingRoundId_spec (s : SigningPolicyStorage)
    (hs : List.Pairwise startLe s.spList) :
    (∀ p, s.findByVotingRoundId v = some p →
        p ∈ s.spList ∧ p.startVotingRoundId ≤ v ∧
        ∀ q ∈ s.spList, q.startVotingRoundId ≤ v →
          q.startVotingRoundId ≤ p.startVotingRoundId) ∧
    (s.findByVotingRoundId v = none →
        ∀ q ∈ s.spList, v < q.startVotingRoundId) := by
  have hpw : ∀ (j k : Nat), ∀ (hj : j < s.spList.length),
      ∀ (hk : k < s.spList.length), j < k →
      s.spList[j].startVotingRoundId ≤ s.spList[k].startVotingRoundId :=
    fun j k hj hk hjk => List.pairwise_iff_getElem.mp hs j k hj hk hjk
  have hle : s.spList.findIdx (findPred v) ≤ s.spList.length :=
    List.findIdx_le_length (findPred v)
  have hbefore : ∀ (j : Nat), ∀ (hj : j < s.spList.length),
      j < s.spList.findIdx (findPred v) →
      s.spList[j].startVotingRoundId < v := by
    intro j hj hjlt
    have h1 := List.not_of_lt_findIdx hjlt
    unfold findPred at h1
    simp only [decide_eq_false_iff_not, not_le] at h1
    exact h1
  by_cases hilen : s.spList.findIdx (findPred v) < s.spList.length
  · have hget := List.getElem?_eq_getElem hilen
    have hat : v ≤ s.spList[s.spList.findIdx (findPred v)].startVotingRoundId := by
      have h1 := @List.findIdx_getElem _ (findPred v) s.spList hilen
      unfold findPred at h1
      simpa using h1
    by_cases hfound :
        v = s.spList[s.spList.findIdx (findPred v)].startVotingRoundId
    · -- found: the element at the found index starts exactly at `v`
      have hc : (v == s.spList[s.spList.findIdx (findPred v)].startVotingRoundId)
          = true := beq_iff_eq.mpr hfound
      have hres : s.findByVotingRoundId v =
          some s.spList[s.spList.findIdx (findPred v)] := by
        rw [findByVotingRoundId_eq, hget]
        simp only [hc, if_true]
      constructor
      · intro p hp
        rw [hres, Option.some_inj] at hp
        subst hp
        refine ⟨List.getElem_mem hilen, le_of_eq hfound.symm, ?_⟩
        intro q _ hq
        omega
      · intro hnone
        rw [hres] at hnone
        simp at hnone
    · -- not found at an in-range index: `v` is strictly below that start
      have hvlt : v < s.spList[s.spList.findIdx (findPred v)].startVotingRoundId :=
        lt_of_le_of_ne hat hfound
      have hc : (v == s.spList[s.spList.findIdx (findPred v)].startVotingRoundId)
          = false := beq_eq_false_iff_ne.mpr hfound
      by_cases hzero : s.spList.findIdx (findPred v) = 0
      · have hres : s.findByVotingRoundId v = none := by
          rw [findByVotingRoundId_eq, hget]
          simp only [hc, Bool.false_eq_true, if_false]
          simp [hzero]
        constructor
        · intro p hp
          rw [hres] at hp
          simp at hp
        · intro _ q hq
          obtain ⟨j, hj, hjq⟩ := List.mem_iff_getElem.mp hq
          subst hjq
          have h0len : 0 < s.spList.length := by omega
          have he : s.spList[List.findIdx (findPred v) s.spList] =
              s.spList[0] := by
            have e : s.spList[List.findIdx (findPred v) s.spList]? =
                s.spList[0]? := by rw [hzero]
            rw [List.getElem?_eq_getElem hilen,
              List.getElem?_eq_getElem h0len, Option.some_inj] at e
            exact e
          rw [he] at hvlt
          rcases Nat.eq_zero_or_pos j with hj0 | hjpos
          · subst hj0
            exact hvlt
          · have h1 := hpw 0 j h0len hj hjpos
            omega
      · -- not found, positive index: the previous element is the answer
        have hprev : s.spList.findIdx (findPred v) - 1 < s.spList.length := by
          omega
        have hgetprev := List.getElem?_eq_getElem hprev
        have hz : (s.spList.findIdx (findPred v) == 0) = false := by
          simp [hzero]
        have hres : s.findByVotingRoundId v =
            some s.spList[s.spList.findIdx (findPred v) - 1] := by
          rw [findByVotingRoundId_eq, hget]
          simp only [hc, Bool.false_eq_true, if_false, hz]
          exact hgetprev
        have hprevlt : s.spList[s.spList.findIdx (findPred v) - 1].startVotingRoundId < v :=
          hbefore _ hprev (by omega)
        constructor
        · intro p hp
          rw [hres, Option.some_inj] at hp
          subst hp
          refine ⟨List.getElem_mem hprev, le_of_lt hprevlt, ?_⟩
          intro q hq hqv
          obtain ⟨j, hj, hjq⟩ := List.mem_iff_getElem.mp hq
          subst hjq
          by_cases hjlt : j < s.spList.findIdx (findPred v)
          · rcases Nat.lt_or_ge j (s.spList.findIdx (findPred v) - 1) with hcase | hcase
            · exact hpw j _ hj hprev hcase
            · have hjeq : j = s.spList.findIdx (findPred v) - 1 := by omega
              subst hjeq
              exact le_refl _
          · have hij : s.spList.findIdx (findPred v) ≤ j := by omega
            rcases Nat.eq_or_lt_of_le hij with hcase | hcase
            · subst hcase
              omega
            · have h1 := hpw _ j hilen hj hcase
              omega
        · intro hnone
          rw [hres] at hnone
          simp at hnone
  · -- the found index is the length: no element starts at or after `v`
    have hget : s.spList[s.spList.findIdx (findPred v)]? = none :=
      List.getElem?_eq_none (by omega)
    have hallbelow : ∀ (j : Nat), ∀ (hj : j < s.spList.length),
        s.spList[j].startVotingRoundId < v := by
      intro j hj
      exact hbefore j hj (by omega)
    by_cases hzero : s.spList.findIdx (findPred v) = 0
    · have hnil : s.spList = [] := by
        apply List.length_eq_zero.mp
        omega
      have hres : s.findByVotingRoundId v = none := by
        rw [findByVotingRoundId_eq, hget]
        simp [hzero]
      constructor
      · intro p hp
        rw [hres] at hp
        simp at hp
      · intro _ q hq
        rw [hnil] at hq
        simp at hq
    · have hprev : s.spList.findIdx (findPred v) - 1 < s.spList.length := by
        omega
      have hgetprev := List.getElem?_eq_getElem hprev
      have hz : (s.spList.findIdx (findPred v) == 0) = false := by
        simp [hzero]
      have hres : s.findByVotingRoundId v =
          some s.spList[s.spList.findIdx (findPred v) - 1] := by
        rw [findByVotingRoundId_eq, hget]
        simp only [hz, Bool.false_eq_true, if_false]
        exact hgetprev
      constructor
      · intro p hp
        rw [hres, Option.some_inj] at hp
        subst hp
        refine ⟨List.getElem_mem hprev,
          le_of_lt (hallbelow _ hprev), ?_⟩
        intro q hq hqv
        obtain ⟨j, hj, hjq⟩ := List.mem_iff_getElem.mp hq
        subst hjq
        rcases Nat.lt_or_ge j (s.spList.findIdx (findPred v) - 1) with hcase | hcase
        · exact hpw j _ hj hprev hcase
        · have hjeq : j = s.spList.findIdx (findPred v) - 1 := by omega
          subst hjeq
          exact le_refl _
      · intro hnone
        rw [hres] at hnone
        simp at hnone

end FindSpec

/-! ## First-wins voter indexing -/

lemma lookupVoter_none_of_any_false (addr : Nat) (vMap : VoterMapEntry)
    (h : (vMap.any (fun q => q.1 == addr)) = false) :
    vMap.find? (fun q => q.1 == addr) = none := by
  rw [List.find?_eq_none]
  intro x hx
  have := List.any_eq_false.mp h x hx
  simpa using this

lemma lookupVoter_append_left (addr : Nat) (m1 m2 : VoterMapEntry)
    (pair : Nat × VoterData)
    (h : m1.find? (fun q => q.1 == addr) = some pair) :
    lookupVoter addr (m1 ++ m2) = some pair.2 := by
  unfold lookupVoter
  rw [List.find?_append, h]
  rfl

lemma lookupVoter_append_right (addr : Nat) (m1 m2 : VoterMapEntry)
    (h : m1.find? (fun q => q.1 == addr) = none) :
    lookupVoter addr (m1 ++ m2) = lookupVoter addr m2 := by
  unfold lookupVoter
  rw [List.find?_append, h]
  rfl

lemma buildVoterMapLoop_lookup_present (weights : List Nat) :
    ∀ (voters : List Nat) (i : Nat) (vMap : VoterMapEntry) (addr : Nat)
      (d : VoterData), lookupVoter addr vMap = some d →
      lookupVoter addr (buildVoterMapLoop weights i voters vMap) = some d := by
  intro voters
  induction voters with
  | nil => intro i vMap addr d h; exact h
  | cons voter rest ih =>
    intro i vMap addr d h
    unfold buildVoterMapLoop
    obtain ⟨pair, hpair, hsnd⟩ : ∃ pair,
        vMap.find? (fun q => q.1 == addr) = some pair ∧ pair.2 = d := by
      unfold lookupVoter at h
      cases hf : vMap.find? (fun q => q.1 == addr) with
      | none => rw [hf] at h; simp at h
      | some pair =>
        rw [hf] at h
        simp only [Option.map_some'] at h
        exact ⟨pair, rfl, by injection h⟩
    by_cases hv : (vMap.any (fun q => q.1 == voter)) = true
    · rw [if_pos hv]
      exact ih (i + 1) vMap addr d h
    · rw [if_neg hv]
      apply ih
      rw [lookupVoter_append_left addr vMap _ pair hpair, hsnd]

lemma buildVoterMapLoop_lookup_absent (weights : List Nat) :
    ∀ (voters : List Nat) (i : Nat) (vMap : VoterMapEntry) (addr : Nat),
      (vMap.any (fun q => q.1 == addr)) = false → addr ∈ voters →
      lookupVoter addr (buildVoterMapLoop weights i voters vMap) =
        some ⟨i + voters.indexOf addr,
          weights.getD (i + voters.indexOf addr) 0⟩ := by
  intro voters
  induction voters with
  | nil => intro i vMap addr _ hmem; simp at hmem
  | cons voter rest ih =>
    intro i vMap addr habs hmem
    unfold buildVoterMapLoop
    by_cases hv : voter = addr
    · subst hv
      have hnone := lookupVoter_none_of_any_false voter vMap habs
      rw [habs]
      simp only [Bool.false_eq_true, if_false]
      have hlook : lookupVoter voter
          (vMap ++ [(voter, ⟨i, weights.getD i 0⟩)]) =
          some ⟨i, weights.getD i 0⟩ := by
        rw [lookupVoter_append_right voter vMap _ hnone]
        unfold lookupVoter
        simp
      rw [buildVoterMapLoop_lookup_present weights rest (i + 1) _ voter _ hlook]
      rw [List.indexOf_cons_self]
      simp
    · have hmem' : addr ∈ rest := by
        rcases List.mem_cons.mp hmem with h | h
        · exact absurd h.symm hv
        · exact h
      have hidx : (voter :: rest).indexOf addr = (rest.indexOf addr).succ :=
        List.indexOf_cons_ne rest hv
      have habs' : ((vMap ++ [(voter, VoterData.mk i (weights.getD i 0))]).any
          (fun q => q.1 == addr)) = false := by
        rw [List.any_append, habs]
        simp [hv]
      by_cases hvq : (vMap.any (fun q => q.1 == voter)) = true
      · rw [if_pos hvq]
        rw [ih (i + 1) vMap addr habs hmem', hidx]
        have harith : i + 1 + rest.indexOf addr =
            i + (rest.indexOf addr).succ := by omega
        rw [harith]
      · rw [if_neg hvq]
        rw [ih (i + 1) _ addr habs' hmem', hidx]
        have harith : i + 1 + rest.indexOf addr =
            i + (rest.indexOf addr).succ := by omega
        rw [harith]

/-- First occurrence of an address wins in the per-policy voter map. -/
lemma buildVoterMap_lookup (voters weights : List Nat) (addr : Nat)
    (h : addr ∈ voters) :
    lookupVoter addr (buildVoterMap voters weights) =
      some ⟨voters.indexOf addr, weights.getD (voters.indexOf addr) 0⟩ := by
  unfold buildVoterMap
  have := buildVoterMapLoop_lookup_absent weights voters 0 [] addr rfl h
  simpa using this

/-! ## Submission pipeline construction (`NewProtocolClient` / `Run`) -/

structure SubmitConfig where
  startOffset : Nat
  txSubmitRetries : Nat
deriving DecidableEq, Repr

structure SubmitSignaturesConfig where
  startOffset : Nat
  txSubmitRetries : Nat
  dataFetchRetries : Nat
  maxRounds : Nat
deriving DecidableEq, Repr

structure SubmitterModel where
  name : String
  selector : List Nat
  epochOffset : Int
  startOffset : Nat
  submitRetries : Nat
deriving DecidableEq, Repr

structure SignatureSubmitterModel where
  name : String
  selector : List Nat
  startOffset : Nat
  submitRetries : Nat
  maxRounds : Nat
  dataFetchRetries : Nat
deriving DecidableEq, Repr

/-- The method selectors from the submission contract ABI (external
metadata, abstracted as given byte strings). -/
structure ContractSelectors where
  submit1 : List Nat
  submit2 : List Nat
  submit3 : List Nat
  submitSignatures : List Nat
deriving DecidableEq, Repr

/-- `newSubmitter`: the fields a plain `Submitter` is built with. -/
def newSubmitterModel (submitCfg : SubmitConfig) (selector : List Nat)
    (epochOffset : Int) (name : String) : SubmitterModel :=
  { name := name
    selector := selector
    epochOffset := epochOffset
    startOffset := submitCfg.startOffset
    submitRetries := max 1 submitCfg.txSubmitRetries }

/-- `newSignatureSubmitter`: always named `submitSignatures`. -/
def newSignatureSubmitterModel (submitCfg : SubmitSignaturesConfig)
    (selector : List Nat) : SignatureSubmitterModel :=
  { name := "submitSignatures"
    selector := selector
    startOffset := submitCfg.startOffset
    submitRetries := max 1 submitCfg.txSubmitRetries
    maxRounds := submitCfg.maxRounds
    dataFetchRetries := submitCfg.dataFetchRetries }

/-- The submitters held by a `ProtocolClient`. -/
structure ProtocolClientModel where
  submitter1 : SubmitterModel
  submitter2 : SubmitterModel
  signatureSubmitter : SignatureSubmitterModel
deriving DecidableEq, Repr

/-- The submitter construction in `NewProtocolClient`: `submitter1` with
epoch offset `0` and name `submit1`, `submitter2` with offset `-1` and name
`submit2`, and the signature submitter. -/
def newProtocolClientModel (cfgSubmit1 cfgSubmit2 : SubmitConfig)
    (cfgSig : SubmitSignaturesConfig) (selectors : ContractSelectors) :
    ProtocolClientModel :=
  { submitter1 := newSubmitterModel cfgSubmit1 selectors.submit1 0 "submit1"
    submitter2 := newSubmitterModel cfgSubmit2 selectors.submit2 (-1) "submit2"
    signatureSubmitter :=
      newSignatureSubmitterModel cfgSig selectors.submitSignatures }

/-- The plain (`Submitter`) instances the client holds. -/
def ProtocolClientModel.plainSubmitters (c : ProtocolClientModel) :
    List SubmitterModel :=
  [c.submitter1, c.submitter2]

/-- `ProtocolClient.Run`: one goroutine per held submitter, in order; the
result is the list of runner names started. -/
def ProtocolClientModel.runStarted (c : ProtocolClientModel) : List String :=
  [c.submitter1.name, c.submitter2.name, c.signatureSubmitter.name]

/-! ## Sample values used by witnesses -/

def sampleSubmitCfg : SubmitConfig := ⟨0, 1⟩

def sampleSigCfg : SubmitSignaturesConfig := ⟨0, 1, 1, 1⟩

def sampleSelectors : ContractSelectors := ⟨[1], [2], [3], [4]⟩

def samplePolicy1 : SigningPolicy := ⟨1, 3, 0, 0, [], [], [], 0⟩

def samplePolicy2 : SigningPolicy := ⟨2, 7, 0, 0, [], [], [], 0⟩

def samplePolicyVoters : SigningPolicy := ⟨1, 3, 0, 0, [7, 8, 7], [10, 20, 30], [], 0⟩

def sampleKeccak : List Nat → List Nat := fun b => [b.length % 256]

lemma executeWithRetryLoop_sends_length (f : Nat → Bool) :
    ∀ remaining ri, (executeWithRetryLoop f remaining ri).sends.length = 1 := by
  intro remaining
  induction remaining with
  | zero => intro ri; rfl
  | succ k ih =>
    intro ri
    by_cases h : f ri <;> simp [executeWithRetryLoop, h, ih]

/-! ## Claim theorems -/

/-- C1: the spec says every `submitSignatures` entry carries at offset 1 a
4-byte big-endian field equal to the target epoch `e−1`; the code instead
writes `uint32(e−2)`: `RunEpoch` passes `currentEpoch−1` to `WritePayload`,
which subtracts 1 again.  At tick epoch 10 the field holds 8, not the
target epoch 9. -/
theorem spec_C1_epoch_field :
    (∀ (sign : List Nat → List Nat) (currentEpoch : Int)
      (data additionalData : List Nat),
      ((runEpochEntry sign currentEpoch data additionalData).drop 1).take 4 =
        uint32toBytes (uint32ofInt (currentEpoch - 2))) ∧
    ((runEpochEntry (fun _ => List.replicate 65 0) 10
      (List.replicate 38 1) []).drop 1).take 4 = [0, 0, 0, 8] ∧
    uint32toBytes (uint32ofInt (10 - 1)) = [0, 0, 0, 9] := by
  refine ⟨?_, by decide, by decide⟩
  intro sign e data addl
  have h : e - 1 - 1 = e - 2 := by omega
  simp only [runEpochEntry, writePayload]
  rw [h]
  simp [uint32toBytes]

/-- C2 counterexample: the claim says three plain submitters `submit1`,
`submit2`, `submit3`; the constructed client holds exactly two plain
submitters and none is named `submit3`. -/
theorem spec_C2_counterexample :
    ((newProtocolClientModel sampleSubmitCfg sampleSubmitCfg sampleSigCfg
        sampleSelectors).plainSubmitters.map (fun s => s.name)) =
      ["submit1", "submit2"] ∧
    (newProtocolClientModel sampleSubmitCfg sampleSubmitCfg sampleSigCfg
        sampleSelectors).plainSubmitters.length ≠ 3 ∧
    ¬ ∃ s ∈ (newProtocolClientModel sampleSubmitCfg sampleSubmitCfg
        sampleSigCfg sampleSelectors).plainSubmitters, s.name = "submit3" := by
  decide

/-- C2 (amended): the pipeline constructs two plain submitters, `submit1`
with epoch offset 0 and `submit2` with epoch offset −1 (no `submit3`), plus
one signature submitter named `submitSignatures`, and `ProtocolClient.Run`
starts all three concurrently. -/
theorem spec_C2_pipeline (cfg1 cfg2 : SubmitConfig)
    (cfgSig : SubmitSignaturesConfig) (selectors : ContractSelectors) :
    ((newProtocolClientModel cfg1 cfg2 cfgSig selectors).plainSubmitters.map
      (fun s => (s.name, s.epochOffset))) =
        [("submit1", 0), ("submit2", -1)] ∧
    (newProtocolClientModel cfg1 cfg2 cfgSig
      selectors).signatureSubmitter.name = "submitSignatures" ∧
    (newProtocolClientModel cfg1 cfg2 cfgSig selectors).runStarted =
      ["submit1", "submit2", "submitSignatures"] :=
  ⟨rfl, rfl, rfl⟩

/-- C3 counterexample: with `max_retries = 0` the harness makes zero
attempts (not `max(1, 0) = 1`), and with two failing attempts it sleeps
twice — once after the final attempt — not only between attempts. -/
theorem spec_C3_counterexample :
    (executeWithRetry (fun _ => false) 0).attempts = 0 ∧
    ¬ 1 ≤ (executeWithRetry (fun _ => false) 0).attempts ∧
    max 1 0 = 1 ∧
    (executeWithRetry (fun _ => false) 2).attempts = 2 ∧
    (executeWithRetry (fun _ => false) 2).sleeps = 2 := by
  decide

/-- C3 (amended): `ExecuteWithRetry` attempts `f` exactly up to
`max_retries` times with no lower bound (zero attempts and an immediate
`Failure` when `max_retries = 0`), sleeps the fixed interval after every
failed attempt including the last, and delivers exactly one status value:
`Success` on the first successful attempt, else
`Failure("max retries reached")` after the last. -/
theorem spec_C3_retry (f : Nat → Bool) (maxRetries : Nat) :
    (executeWithRetry f maxRetries).sends.length = 1 ∧
    (∀ k, k < maxRetries → f k = true → (∀ j, j < k → f j = false) →
      executeWithRetry f maxRetries = ⟨[⟨true, ""⟩], k + 1, k⟩) ∧
    ((∀ k, k < maxRetries → f k = false) →
      executeWithRetry f maxRetries =
        ⟨[⟨false, "max retries reached"⟩], maxRetries, maxRetries⟩) := by
  refine ⟨executeWithRetryLoop_sends_length f maxRetries 0, ?_, ?_⟩
  · intro k hk hfk hprev
    exact executeWithRetryLoop_first_success f maxRetries 0 k hk
      (by simpa using hfk) (fun j hj => by simpa using hprev j hj)
  · intro hall
    exact executeWithRetryLoop_all_fail f maxRetries 0
      (fun j hj => by simpa using hall j hj)

/-- Witness for C3: success at the second of three attempts, and total
failure over two attempts. -/
theorem spec_C3_retry_witness :
    executeWithRetry (fun k => decide (k = 1)) 3 = ⟨[⟨true, ""⟩], 2, 1⟩ ∧
    executeWithRetry (fun _ => false) 2 =
      ⟨[⟨false, "max retries reached"⟩], 2, 2⟩ :=
  ⟨(spec_C3_retry (fun k => decide (k = 1)) 3).2.1 1 (by decide) (by decide)
      (by decide),
   (spec_C3_retry (fun _ => false) 2).2.2 (fun _ _ => rfl)⟩

/-- C4: in every round of the signature submitter in which at least one
entry was appended but the transaction fails, the outstanding set is
restored to its pre-round snapshot; if nothing was appended, no transaction
is submitted and the set is unchanged. -/
theorem spec_C4_round (n : Nat) (ok : Nat → Bool) (submitOk : Bool)
    (protocolsToSend : Finset Nat) :
    ((∃ i ∈ protocolsToSend, i < n ∧ ok i = true) → submitOk = false →
      (signatureRound n ok submitOk protocolsToSend).newToSend =
        protocolsToSend ∧
      (signatureRound n ok submitOk protocolsToSend).submitted = true) ∧
    ((∀ i ∈ protocolsToSend, ¬ (i < n ∧ ok i = true)) →
      (signatureRound n ok submitOk protocolsToSend).submitted = false ∧
      (signatureRound n ok submitOk protocolsToSend).newToSend =
        protocolsToSend) := by
  constructor
  · rintro ⟨i, hi, hin, hok⟩ hsub
    subst hsub
    have hcard := signatureRound_card_lt n ok protocolsToSend i hi hin hok
    simp only [signatureRound]
    rw [if_pos hcard]
    exact ⟨rfl, rfl⟩
  · intro hall
    have heq := signatureRound_afterLoop_eq n ok protocolsToSend hall
    simp only [signatureRound]
    rw [heq, if_neg (lt_irrefl _)]
    exact ⟨rfl, rfl⟩

/-- Witness for C4: three protocols, only protocol 0 succeeds, the
transaction fails, and the set `{0, 1, 2}` is retried whole; when no fetch
succeeds nothing is submitted. -/
theorem spec_C4_round_witness :
    ((signatureRound 3 (fun i => decide (i = 0)) false
        ({0, 1, 2} : Finset Nat)).newToSend = {0, 1, 2} ∧
      (signatureRound 3 (fun i => decide (i = 0)) false
        ({0, 1, 2} : Finset Nat)).submitted = true) ∧
    (signatureRound 3 (fun _ => false) true
      ({0, 1, 2} : Finset Nat)).submitted = false :=
  ⟨(spec_C4_round 3 (fun i => decide (i = 0)) false {0, 1, 2}).1
      ⟨0, by decide, by decide, by decide⟩ rfl,
   ((spec_C4_round 3 (fun _ => false) true {0, 1, 2}).2 (by decide)).1⟩

/-- C5: on every store reachable by accepted `Add` calls,
`GetForVotingRound(v)` returns a stored policy whose
`startVotingRoundId ≤ v` is largest (hence the unique such policy when the
maximum is attained once), and returns nothing exactly when every stored
policy starts after `v`. -/
theorem spec_C5_get (sps : List SigningPolicy) (v : Nat) :
    (∀ p, (runAdds sps).GetForVotingRound v = some p →
        p ∈ (runAdds sps).spList ∧ p.startVotingRoundId ≤ v ∧
        ∀ q ∈ (runAdds sps).spList, q.startVotingRoundId ≤ v →
          q.startVotingRoundId ≤ p.startVotingRoundId) ∧
    ((runAdds sps).GetForVotingRound v = none →
        ∀ q ∈ (runAdds sps).spList, v < q.startVotingRoundId) ∧
    ((∃ q ∈ (runAdds sps).spList, q.startVotingRoundId ≤ v) →
        ∃ p, (runAdds sps).GetForVotingRound v = some p) := by
  have hinv := storageInv_runOps (sps.map StoreOp.add)
  have hs : List.Pairwise startLe (runAdds sps).spList :=
    chain_start_pairwise hinv.1
  have hspec := findByVotingRoundId_spec v (runAdds sps) hs
  refine ⟨hspec.1, hspec.2, ?_⟩
  rintro ⟨q, hq, hqv⟩
  cases hres : (runAdds sps).GetForVotingRound v with
  | some p => exact ⟨p, rfl⟩
  | none =>
    have := hspec.2 hres q hq
    omega

/-- Witness for C5: with stored policies starting at rounds 3 and 7, round
5 resolves to the policy starting at 3. -/
theorem spec_C5_get_witness :
    samplePolicy1 ∈ (runAdds [samplePolicy1, samplePolicy2]).spList ∧
    samplePolicy1.startVotingRoundId ≤ 5 ∧
    ∀ q ∈ (runAdds [samplePolicy1, samplePolicy2]).spList,
      q.startVotingRoundId ≤ 5 →
      q.startVotingRoundId ≤ samplePolicy1.startVotingRoundId :=
  (spec_C5_get [samplePolicy1, samplePolicy2] 5).1 samplePolicy1 (by decide)

/-- C6: `Add` on a non-empty store fails with the
"missing signing policy" error when the reward epoch does not advance by
one, fails when the start voting round decreases, leaves the store
unchanged on failure, and every sequence of accepted `Add` calls keeps the
list chained: reward epoch step +1, start voting round non-decreasing. -/
theorem spec_C6_add :
    (∀ (s : SigningPolicyStorage) (sp last : SigningPolicy),
      s.spList.getLast? = some last →
      last.rewardEpochId ≠ sp.rewardEpochId - 1 →
      s.add sp = .error ("missing signing policy for reward epoch id " ++
        toString (sp.rewardEpochId - 1))) ∧
    (∀ (s : SigningPolicyStorage) (sp last : SigningPolicy),
      s.spList.getLast? = some last →
      last.rewardEpochId = sp.rewardEpochId - 1 →
      sp.startVotingRoundId < last.startVotingRoundId →
      ∃ msg, s.add sp = .error msg) ∧
    (∀ (s : SigningPolicyStorage) (sp : SigningPolicy) (msg : String),
      s.add sp = .error msg → applyOp s (.add sp) = s) ∧
    (∀ sps : List SigningPolicy,
      List.Chain' policyRel (runAdds sps).spList) := by
  refine ⟨?_, ?_, ?_, ?_⟩
  · intro s sp last hlast hne
    simp only [SigningPolicyStorage.add, hlast]
    rw [if_pos hne]
  · intro s sp last hlast heq hlt
    refine ⟨"signing policy for reward epoch id " ++
      toString sp.rewardEpochId ++
      " has larger start voting round id than previous policy", ?_⟩
    simp only [SigningPolicyStorage.add, hlast]
    rw [if_neg (fun hcon => hcon heq), if_pos hlt]
  · intro s sp msg herr
    show (match s.add sp with | .ok s' => s' | .error _ => s) = s
    rw [herr]
  · intro sps
    exact (storageInv_runOps (sps.map StoreOp.add)).1

/-- Witness for C6: adding reward epoch 5 after epoch 1 fails with the
"missing signing policy for reward epoch id 4" error, the store is
unchanged, and an accepted sequence is chained. -/
theorem spec_C6_add_witness :
    (runAdds [samplePolicy1]).add ⟨5, 3, 0, 0, [], [], [], 0⟩ =
      .error "missing signing policy for reward epoch id 4" ∧
    applyOp (runAdds [samplePolicy1]) (.add ⟨5, 3, 0, 0, [], [], [], 0⟩) =
      runAdds [samplePolicy1] ∧
    List.Chain' policyRel (runAdds [samplePolicy1, samplePolicy2]).spList := by
  have h := spec_C6_add.1 (runAdds [samplePolicy1])
    ⟨5, 3, 0, 0, [], [], [], 0⟩ samplePolicy1 (by decide) (by decide)
  refine ⟨?_, ?_, spec_C6_add.2.2.2 [samplePolicy1, samplePolicy2]⟩
  · rw [h]
    rfl
  · exact spec_C6_add.2.2.1 _ _ _ h

/-- C7: for inputs longer than 32 bytes, `SigningPolicyHash` is the
left-associative fold over 32-byte tiles of the zero-padded input seeded
with keccak of the first two tiles, and for inputs whose length is not a
multiple of 32 the hash is unchanged by explicitly appending the trailing
partial tile of zero bytes. -/
theorem spec_C7_hash (keccak : List Nat → List Nat)
    (signingPolicy : List Nat) :
    (32 < signingPolicy.length →
      signingPolicyHash keccak signingPolicy =
        some (signingPolicyHashSpec keccak signingPolicy)) ∧
    (signingPolicy.length % 32 ≠ 0 →
      signingPolicyHash keccak signingPolicy =
        signingPolicyHash keccak
          (signingPolicy ++
            List.replicate (32 - signingPolicy.length % 32) 0)) := by
  constructor
  · exact signingPolicyHash_eq_spec keccak signingPolicy
  · intro h
    show signingPolicyHashCore keccak (padPolicy signingPolicy) =
      signingPolicyHashCore keccak (padPolicy (signingPolicy ++
        List.replicate (32 - signingPolicy.length % 32) 0))
    rw [padPolicy_of_mod_ne signingPolicy h]

/-- Witness for C7: a 33-byte input. -/
theorem spec_C7_hash_witness :
    32 < (List.replicate 33 7).length ∧
    signingPolicyHash sampleKeccak (List.replicate 33 7) =
      some (signingPolicyHashSpec sampleKeccak (List.replicate 33 7)) ∧
    signingPolicyHash sampleKeccak (List.replicate 33 7) =
      signingPolicyHash sampleKeccak (List.replicate 33 7 ++
        List.replicate (32 - (List.replicate 33 7).length % 32) 0) :=
  ⟨by decide, (spec_C7_hash sampleKeccak (List.replicate 33 7)).1 (by decide),
   (spec_C7_hash sampleKeccak (List.replicate 33 7)).2 (by decide)⟩

/-- C9: `SigningPolicyHash` is total only for inputs longer than 32 bytes;
for every input of at most 32 bytes (the empty string included) the slice
of bytes 32..64 — or 0..32 when too short — is out of range and the
function panics (`none`). -/
theorem spec_C9_hash_domain (keccak : List Nat → List Nat)
    (signingPolicy : List Nat) :
    (signingPolicy.length ≤ 32 →
      signingPolicyHash keccak signingPolicy = none) ∧
    (32 < signingPolicy.length →
      ∃ h, signingPolicyHash keccak signingPolicy = some h) := by
  constructor
  · intro h
    unfold signingPolicyHash
    apply signingPolicyHashCore_none
    have := padPolicy_length_le signingPolicy h
    omega
  · intro h
    exact ⟨_, signingPolicyHash_eq_spec keccak signingPolicy h⟩

/-- Witness for C9: the empty input and a 32-byte input panic; a 33-byte
input hashes. -/
theorem spec_C9_hash_domain_witness :
    signingPolicyHash sampleKeccak [] = none ∧
    signingPolicyHash sampleKeccak (List.replicate 32 1) = none ∧
    ∃ h, signingPolicyHash sampleKeccak (List.replicate 33 1) = some h :=
  ⟨(spec_C9_hash_domain sampleKeccak []).1 (by decide),
   (spec_C9_hash_domain sampleKeccak (List.replicate 32 1)).1 (by decide),
   (spec_C9_hash_domain sampleKeccak (List.replicate 33 1)).2 (by decide)⟩

/-- C10: in every state reachable through `Add` and `RemoveByVotingRound`,
the voter map's keys are exactly the stored reward epoch ids, each stored
policy's entry is its voter map, and within a policy's map the first
occurrence of an address wins. -/
theorem spec_C10_voter_map (ops : List StoreOp) :
    ((runOps ops).voterMap.map Prod.fst =
      (runOps ops).spList.map (fun p => p.rewardEpochId)) ∧
    (∀ p ∈ (runOps ops).spList,
      mapLookup p.rewardEpochId (runOps ops).voterMap =
        some (buildVoterMap p.voters p.weights)) ∧
    (∀ (voters weights : List Nat) (addr : Nat), addr ∈ voters →
      lookupVoter addr (buildVoterMap voters weights) =
        some ⟨voters.indexOf addr, weights.getD (voters.indexOf addr) 0⟩) := by
  have hinv := storageInv_runOps ops
  exact ⟨hinv.2.1, hinv.2.2, buildVoterMap_lookup⟩

/-- Witness for C10: a policy with a duplicated voter address; its entry is
installed under its epoch, address 7 maps to its first index, and after a
removal the key list still mirrors the stored policies. -/
theorem spec_C10_voter_map_witness :
    mapLookup samplePolicyVoters.rewardEpochId
      (runOps [StoreOp.add samplePolicyVoters]).voterMap =
        some (buildVoterMap [7, 8, 7] [10, 20, 30]) ∧
    lookupVoter 7 (buildVoterMap [7, 8, 7] [10, 20, 30]) =
      some ⟨[7, 8, 7].indexOf 7, [10, 20, 30].getD ([7, 8, 7].indexOf 7) 0⟩ ∧
    (runOps [StoreOp.add samplePolicyVoters,
        StoreOp.removeByVotingRound 5]).voterMap.map Prod.fst =
      (runOps [StoreOp.add samplePolicyVoters,
        StoreOp.removeByVotingRound 5]).spList.map
          (fun p => p.rewardEpochId) :=
  ⟨(spec_C10_voter_map [StoreOp.add samplePolicyVoters]).2.1
      samplePolicyVoters (by decide),
   (spec_C10_voter_map []).2.2 [7, 8, 7] [10, 20, 30] 7 (by decide),
   (spec_C10_voter_map [StoreOp.add samplePolicyVoters,
      StoreOp.removeByVotingRound 5]).1⟩

/-- C8 counterexample: the claim says the loop publishes exactly one value
on `lastEpoch`; a stop signal delivering bound 0 before any tick makes the
loop send twice (once at signal receipt, once at exit), and it never ran
an epoch. -/
theorem spec_C8_counterexample :
    run [RunEvent.stop 0] = ([0, 0], []) ∧
    (run [RunEvent.stop 0]).1.length ≠ 1 := by
  decide

/-- C8 (amended): once `stop_at` delivers an epoch bound, the loop finishes
the epoch it is running, keeps ticking until the epoch index reaches the
bound, and exits; it publishes on `last_epoch` twice — the epoch current at
signal receipt (0 if none ran yet), then on exit the last epoch it actually
ran. -/
theorem spec_C8_stop (v : Int) (pre : List Int) (hv : v < maxInt64)
    (h0 : 0 < v) (hpre : ∀ e ∈ pre, e < v) :
    run (pre.map RunEvent.tick ++ [RunEvent.stop v, RunEvent.tick v]) =
      ([pre.getLastD 0, v], pre ++ [v]) :=
  runLoop_ticks_stop_tick v hv pre 0 h0 hpre

/-- Witness for C8: ticks 1 and 2 run, the stop bound 3 arrives, tick 3 is
still completed, and `last_epoch` receives 2 then 3. -/
theorem spec_C8_stop_witness :
    run ([1, 2].map RunEvent.tick ++ [RunEvent.stop 3, RunEvent.tick 3]) =
      ([2, 3], [1, 2, 3]) :=
  spec_C8_stop 3 [1, 2] (by decide) (by decide) (by decide)

end FlareClient
